import Mathlib

/-!
Verification of the `rootMultiStore` commitment engine
(`store/rootmultistore.go`): the versioned multi-store data model
(`CommitID` / `StoreInfo` / `CommitInfo`), order-independent aggregate
hashing, loading (`LoadVersion` / `LoadLatestVersion`), committing
(`Commit` / `commitStores`), proof construction (`CommitInfo.ProofOp`)
and query routing (`Query` / `parsePath`).

External collaborators (the underlying IAVL tree, the tendermint merkle
library, the amino codec, the SHA-256 hash and the sdk upgrade/commit
policies) are modelled as explicit parameters or as injective encoding
functions, matching the contracts stated for them.  Go maps are modelled
as association lists with overwrite-on-insert; Go's randomized map
iteration order is refined to the list order.
-/

namespace RootMS

/-- Byte strings, modelled as lists of naturals (`[]byte`; Go `nil` is `[]`). -/
abbrev Bytes := List Nat

/-- Model of `tmhash` (SHA-256), idealized as an injective tagged encoding:
collision-freeness of the real hash is assumed, as usual for symbolic models. -/
def tmhashModel (bz : Bytes) : Bytes := 2 :: bz

/-- Injective model encoding of an integer. -/
def encodeInt (i : Int) : Bytes :=
  if 0 ≤ i then [0, i.toNat] else [1, (-i).toNat]

/-- Length-prefixed model encoding of a byte string. -/
def encodeBytes (b : Bytes) : Bytes := b.length :: b

/-- Length-prefixed model encoding of a string. -/
def encodeString (s : String) : Bytes := s.length :: s.toList.map Char.toNat

/-- `CommitID`: version plus root hash of a committed store
(`type CommitID struct { Version int64; Hash []byte }`). -/
structure CommitID where
  version : Int
  hash : Bytes
deriving DecidableEq, Repr

/-- The zero `CommitID{}`: "not yet committed". -/
def CommitID.zero : CommitID := ⟨0, []⟩

/-- `StoreCore`: the hashed core of a `StoreInfo` (`type StoreCore struct { CommitID CommitID }`). -/
structure StoreCore where
  commitID : CommitID
deriving DecidableEq, Repr

/-- `StoreInfo`: name plus core commitment for one substore. -/
structure StoreInfo where
  name : String
  core : StoreCore
deriving DecidableEq, Repr

/-- `CommitInfo`: the manifest for one committed version. -/
structure CommitInfo where
  version : Int
  storeInfos : List StoreInfo
deriving DecidableEq, Repr

/-- Association-list lookup: model of Go map indexing `m[k]`. -/
def assocGet {K V : Type} [DecidableEq K] (k : K) : List (K × V) → Option V
  | [] => none
  | p :: rest => if p.1 = k then some p.2 else assocGet k rest

/-- Association-list update: model of Go map assignment `m[k] = v`
(overwrites the entry for `k` if present, appends otherwise). -/
def assocSet {K V : Type} [DecidableEq K] (l : List (K × V)) (k : K) (v : V) : List (K × V) :=
  match l with
  | [] => [(k, v)]
  | p :: rest => if p.1 = k then (k, v) :: rest else p :: assocSet rest k v

/-- The keys of a Go map model, sorted by name: `merkle.SimpleHashFromMap`
sorts the map's key/value pairs by key before hashing. -/
def canonicalKeys (m : List (String × Bytes)) : List String :=
  (m.map Prod.fst).insertionSort (· ≤ ·)

/-- Model of `merkle.SimpleHashFromMap`: hash of the key/value pairs taken in
sorted key order.  Idealized as an injective encoding of that sorted sequence,
which is exactly the determinism/collision-freeness contract of the library. -/
def simpleHashFromMap (m : List (String × Bytes)) : Bytes :=
  tmhashModel
    (3 :: (canonicalKeys m).flatMap fun k => encodeString k ++ encodeBytes ((assocGet k m).getD []))

/-- `StoreInfo.GetHash`: the raw `CommitID` hash
(`func (si StoreInfo) GetHash() []byte { return si.Core.CommitID.Hash }`). -/
def StoreInfo.getHash (si : StoreInfo) : Bytes := si.core.commitID.hash

/-- Model of `cdc.MarshalBinaryLengthPrefixed(si.Core)`: injective deterministic
encoding of the store core (the amino codec collaborator). -/
def marshalStoreCore (c : StoreCore) : Bytes :=
  encodeInt c.commitID.version ++ encodeBytes c.commitID.hash

/-- `StoreInfo.Hash`: hash of the length-prefixed serialization of the core
(does not hash the name; the map keys carry the names). -/
def StoreInfo.hash (si : StoreInfo) : Bytes := tmhashModel (marshalStoreCore si.core)

/-- Build a Go map `name -> f(storeInfo)` by iterating the `StoreInfos` slice:
`for _, storeInfo := range ci.StoreInfos { m[storeInfo.Name] = f(storeInfo) }`. -/
def buildMap (f : StoreInfo → Bytes) (infos : List StoreInfo) : List (String × Bytes) :=
  infos.foldl (fun m si => assocSet m si.name (f si)) []

/-- `CommitInfo.Hash`: merkle root of the name→hash map.  The per-store hash is
`GetHash` (raw CommitID hash) when the BEP171 upgrade is active
(`sdk.IsUpgrade(sdk.BEP171)`, passed here as `upg`), and `StoreInfo.Hash`
(the serialized-core hash) otherwise. -/
def CommitInfo.hash (upg : Bool) (ci : CommitInfo) : Bytes :=
  let m := if upg then buildMap StoreInfo.getHash ci.storeInfos
           else buildMap StoreInfo.hash ci.storeInfos
  simpleHashFromMap m

/-- `CommitInfo.CommitID()`. -/
def CommitInfo.commitID (upg : Bool) (ci : CommitInfo) : CommitID :=
  ⟨ci.version, ci.hash upg⟩

/-- `CommitInfo.toMap`: the same name→hash map used by `Hash`
(`Core.CommitID.Hash` under the upgrade, `StoreInfo.Hash` otherwise). -/
def CommitInfo.toMap (upg : Bool) (ci : CommitInfo) : List (String × Bytes) :=
  if upg then buildMap (fun si => si.core.commitID.hash) ci.storeInfos
  else buildMap StoreInfo.hash ci.storeInfos

instance {ε α : Type} [DecidableEq ε] [DecidableEq α] : DecidableEq (Except ε α) :=
  fun a b =>
    match a, b with
    | Except.error e₁, Except.error e₂ =>
        if h : e₁ = e₂ then isTrue (by rw [h])
        else isFalse fun he => h (Except.error.inj he)
    | Except.error _, Except.ok _ => isFalse Except.noConfusion
    | Except.ok _, Except.error _ => isFalse Except.noConfusion
    | Except.ok v₁, Except.ok v₂ =>
        if h : v₁ = v₂ then isTrue (by rw [h])
        else isFalse fun he => h (Except.ok.inj he)

/-- Result of a Go function that may return normally, return an `error`, or
`panic`.  `panics` carries the panic message; once raised it propagates. -/
inductive Outcome (α : Type) where
  | ok : α → Outcome α
  | error : String → Outcome α
  | panics : String → Outcome α
deriving DecidableEq, Repr

/-- `StoreType`: closed enumeration `{Multi, IAVL, DB, Transient}`. -/
inductive StoreType where
  | multi
  | iavl
  | db
  | transient
deriving DecidableEq, Repr

/-- `sdk.PruningStrategy`. -/
inductive PruningStrategy where
  | syncable
  | keepNothing
  | keepEverything
deriving DecidableEq, Repr

/-- `StoreKey`: identity for a mounted substore.  Go compares keys by pointer
identity; `id` models that identity, `name` is `key.Name()`, and `isTransient`
records whether the key is a `*sdk.TransientStoreKey`. -/
structure StoreKey where
  id : Nat
  name : String
  isTransient : Bool
deriving DecidableEq, Repr

/-- A query request (`abci.RequestQuery` restricted to the fields `Query` reads). -/
structure RequestQuery where
  path : String
  data : Bytes
  height : Int
  prove : Bool
deriving DecidableEq, Repr

/-- An existence proof in the external commitment-proof format: the claimed
leaf key/value and the root computed from the inclusion path. -/
structure ExistenceProof where
  key : Bytes
  value : Bytes
  root : Bytes
deriving DecidableEq, Repr

/-- A proof operation appended to a query response: either the
ics23 simple-merkle commitment op from `CommitInfo.ProofOp`, or the
legacy multi-store proof op. -/
inductive ProofOp where
  | simpleMerkleCommitment (key : Bytes) (proof : ExistenceProof)
  | multiStore (key : Bytes) (storeInfos : List StoreInfo)
deriving DecidableEq, Repr

/-- A query response (`abci.ResponseQuery` restricted to the fields used). -/
structure ResponseQuery where
  code : Nat
  log : String
  value : Bytes
  height : Int
  proofOps : List ProofOp
deriving DecidableEq, Repr

/-- `sdk.CodeUnknownRequest`. -/
def codeUnknownRequest : Nat := 6
/-- `sdk.CodeInternal`. -/
def codeInternal : Nat := 1

/-- `sdk.ErrUnknownRequest(msg).QueryResult()`. -/
def unknownRequestResult (msg : String) : ResponseQuery :=
  ⟨codeUnknownRequest, msg, [], 0, []⟩

/-- `sdk.ErrInternal(msg).QueryResult()`. -/
def internalErrorResult (msg : String) : ResponseQuery :=
  ⟨codeInternal, msg, [], 0, []⟩

/-- A live `CommitStore` (the collaborator contract of one substore):
its store type, its current version counter, the root hash its state has at
each version (`hashAt`, the external tree contents), and its query entry
point when the store supports queries (`none` models a store that is not
`Queryable`). -/
structure CommitStore where
  typ : StoreType
  version : Int
  hashAt : Int → Bytes
  queryFn : Option (RequestQuery → ResponseQuery)

/-- `store.Commit()`: advance the version and return the new `CommitID`. -/
def CommitStore.commit (s : CommitStore) : CommitID × CommitStore :=
  (⟨s.version + 1, s.hashAt (s.version + 1)⟩, { s with version := s.version + 1 })

/-- `store.SetVersion(v)`. -/
def CommitStore.setVersion (s : CommitStore) (v : Int) : CommitStore :=
  { s with version := v }

/-- `newTransientStore()`: fresh in-memory store; not queryable. -/
def newTransientStore : CommitStore :=
  ⟨StoreType.transient, 0, fun _ => [], none⟩

/-- Keys of the backing database.  The source keys the records by the strings
`"s/latest"` and `fmt.Sprintf("s/%d", version)`; since the decimal formatting
is injective and disjoint from `"latest"`, the key space is modelled as a
tagged type. -/
inductive DBKey where
  | latest
  | commitInfoAt (version : Int)
deriving DecidableEq, Repr

/-- Values stored in the backing database, as produced by the deterministic
length-prefixed codec (`cdc.MarshalBinaryLengthPrefixed`); decoding at the
wrong type fails.  Modelled as a tagged sum, i.e. codec round-trip is exact. -/
inductive DBVal where
  | intVal (v : Int)
  | infoVal (ci : CommitInfo)
deriving DecidableEq, Repr

/-- The backing key-value database (`dbm.DB`), restricted to the metadata
partition this file uses. -/
def DB := List (DBKey × DBVal)

instance : DecidableEq DB := by
  unfold DB
  infer_instance

/-- `db.Get`. -/
def DB.get (db : DB) (k : DBKey) : Option DBVal := assocGet k db

/-- `db.Set` (applied through a batch in the source). -/
def DB.set (db : DB) (k : DBKey) (v : DBVal) : DB := assocSet db k v

/-- `getLatestVersion(db)`: missing key means version 0; a value of the wrong
shape makes the codec fail, which the source turns into a panic. -/
def getLatestVersion (db : DB) : Outcome Int :=
  match db.get DBKey.latest with
  | none => Outcome.ok 0
  | some (DBVal.intVal v) => Outcome.ok v
  | some (DBVal.infoVal _) => Outcome.panics "unmarshal latest version"

/-- `setLatestVersion(batch, version)`. -/
def setLatestVersion (db : DB) (version : Int) : DB :=
  db.set DBKey.latest (DBVal.intVal version)

/-- `getCommitInfo(db, ver)`: returns an error when absent or undecodable. -/
def getCommitInfo (db : DB) (ver : Int) : Except String CommitInfo :=
  match db.get (DBKey.commitInfoAt ver) with
  | none => Except.error "failed to get rootMultiStore: no data"
  | some (DBVal.infoVal ci) => Except.ok ci
  | some (DBVal.intVal _) => Except.error "failed to get rootMultiStore: unmarshal error"

/-- `setCommitInfo(batch, version, cInfo)`. -/
def setCommitInfo (db : DB) (version : Int) (cInfo : CommitInfo) : DB :=
  db.set (DBKey.commitInfoAt version) (DBVal.infoVal cInfo)

/-- `storeParams`: mount configuration for one substore.  `ownDB` records
whether an explicit backing handle was supplied (it only selects which
database partition the external loader reads). -/
structure StoreParams where
  key : StoreKey
  ownDB : Bool
  typ : StoreType

/-- The external collaborators of the root multi-store, passed explicitly:
the active protocol-version switch `sdk.IsUpgrade(sdk.BEP171)`, the sdk
commit policies `ShouldCommitStore` / `ShouldSetStoreVersion`, the proof
policy `RequireProof` (modelled from the spec: a predicate over the subpath
deciding which query kinds need proof), and `LoadIAVLStore` (construction
of a versioned IAVL store from its database partition, which may fail). -/
structure Ext where
  isUpgradeBEP171 : Bool
  shouldCommitStore : String → Bool
  shouldSetStoreVersion : String → Bool
  requireProof : String → Bool
  loadIAVLStore : StoreKey → CommitID → PruningStrategy → Except String CommitStore

/-- The `rootMultiStore` state.  The Go maps `storesParams`, `stores` and
`keysByName` are association lists; list order models iteration order. -/
structure RootMultiStore where
  db : DB
  lastCommitID : CommitID
  pruning : PruningStrategy
  storesParams : List (StoreKey × StoreParams)
  stores : List (StoreKey × CommitStore)
  keysByName : List (String × StoreKey)

/-- `loadCommitStoreFromParams(key, id, params)`: dispatch on the declared
store type.  `Multi` and `DB` panic; `IAVL` delegates to the external loader;
`Transient` requires a transient store key and otherwise returns an error. -/
def loadCommitStoreFromParams (ext : Ext) (pruning : PruningStrategy) (key : StoreKey)
    (id : CommitID) (params : StoreParams) : Outcome CommitStore :=
  match params.typ with
  | StoreType.multi => Outcome.panics "recursive MultiStores not yet supported"
  | StoreType.iavl =>
      match ext.loadIAVLStore key id pruning with
      | Except.ok s => Outcome.ok s
      | Except.error e => Outcome.error e
  | StoreType.db => Outcome.panics "dbm.DB is not a CommitStore"
  | StoreType.transient =>
      if key.isTransient then Outcome.ok newTransientStore
      else Outcome.error ("invalid StoreKey for StoreTypeTransient: " ++ key.name)

/-- `rs.nameToKey(name)`: scan the mounted `storesParams` keys for one whose
name matches; panics when none does. -/
def nameToKey (storesParams : List (StoreKey × StoreParams)) (name : String) :
    Outcome StoreKey :=
  match storesParams with
  | [] => Outcome.panics ("Unknown name " ++ name)
  | (key, _) :: rest =>
      if key.name = name then Outcome.ok key else nameToKey rest name

/-- The loop `infos[rs.nameToKey(storeInfo.Name)] = storeInfo` over
`cInfo.StoreInfos`, building the `StoreKey → StoreInfo` map; a `nameToKey`
panic aborts the whole load. -/
def buildInfos (storesParams : List (StoreKey × StoreParams))
    (acc : List (StoreKey × StoreInfo)) :
    List StoreInfo → Outcome (List (StoreKey × StoreInfo))
  | [] => Outcome.ok acc
  | si :: rest =>
      match nameToKey storesParams si.name with
      | Outcome.ok key => buildInfos storesParams (assocSet acc key si) rest
      | Outcome.error e => Outcome.error e
      | Outcome.panics p => Outcome.panics p

/-- The `version == 0` loop of `LoadVersion`: every mounted store is
instantiated at the zero `CommitID` and written into `rs.stores` **in place**,
one iteration at a time; a failure returns the error with the stores
installed so far still in the map. -/
def loadLoop0 (ext : Ext) (pruning : PruningStrategy) :
    List (StoreKey × StoreParams) → List (StoreKey × CommitStore) →
    Outcome Unit × List (StoreKey × CommitStore)
  | [], stores => (Outcome.ok (), stores)
  | (key, params) :: rest, stores =>
      match loadCommitStoreFromParams ext pruning key CommitID.zero params with
      | Outcome.ok store => loadLoop0 ext pruning rest (assocSet stores key store)
      | Outcome.error e =>
          (Outcome.error ("failed to load rootMultiStore: " ++ e), stores)
      | Outcome.panics p => (Outcome.panics p, stores)

/-- The `version > 0` loop of `LoadVersion`: build the **local** map
`newStores`, resolving each mounted store's `CommitID` from the manifest
(zero when its name is absent); any failure discards the local map. -/
def loadAll (ext : Ext) (pruning : PruningStrategy) (infos : List (StoreKey × StoreInfo))
    (acc : List (StoreKey × CommitStore)) :
    List (StoreKey × StoreParams) → Outcome (List (StoreKey × CommitStore))
  | [] => Outcome.ok acc
  | (key, params) :: rest =>
      let id := match assocGet key infos with
                | some info => info.core.commitID
                | none => CommitID.zero
      match loadCommitStoreFromParams ext pruning key id params with
      | Outcome.ok store => loadAll ext pruning infos (assocSet acc key store) rest
      | Outcome.error e => Outcome.error ("failed to load rootMultiStore: " ++ e)
      | Outcome.panics p => Outcome.panics p

/-- `rs.LoadVersion(ver)`.  The second component is the `rootMultiStore`
state when the call returns (on a panic it is the state at the panic point,
which never becomes observable). -/
def loadVersion (ext : Ext) (rs : RootMultiStore) (ver : Int) :
    Outcome Unit × RootMultiStore :=
  if ver = 0 then
    match loadLoop0 ext rs.pruning rs.storesParams rs.stores with
    | (Outcome.ok _, stores') =>
        (Outcome.ok (), { rs with stores := stores', lastCommitID := CommitID.zero })
    | (Outcome.error e, stores') => (Outcome.error e, { rs with stores := stores' })
    | (Outcome.panics p, stores') => (Outcome.panics p, { rs with stores := stores' })
  else
    match getCommitInfo rs.db ver with
    | Except.error e => (Outcome.error e, rs)
    | Except.ok cInfo =>
        match buildInfos rs.storesParams [] cInfo.storeInfos with
        | Outcome.panics p => (Outcome.panics p, rs)
        | Outcome.error e => (Outcome.error e, rs)
        | Outcome.ok infos =>
            match loadAll ext rs.pruning infos [] rs.storesParams with
            | Outcome.error e => (Outcome.error e, rs)
            | Outcome.panics p => (Outcome.panics p, rs)
            | Outcome.ok newStores =>
                (Outcome.ok (),
                 { rs with lastCommitID := cInfo.commitID ext.isUpgradeBEP171,
                           stores := newStores })

/-- `rs.LoadLatestVersion()`: read the latest-version pointer and delegate. -/
def loadLatestVersion (ext : Ext) (rs : RootMultiStore) :
    Outcome Unit × RootMultiStore :=
  match getLatestVersion rs.db with
  | Outcome.ok ver => loadVersion ext rs ver
  | Outcome.error e => (Outcome.error e, rs)
  | Outcome.panics p => (Outcome.panics p, rs)

/-- The loop body of `commitStores(version, storeMap)`: skip stores the
commit policy rejects (without committing them); optionally synchronize the
store's version counter; commit; record a `StoreInfo` unless the store is
`Transient`.  Returns the recorded `StoreInfos` (in iteration order) and the
updated stores. -/
def commitStoresList (ext : Ext) (version : Int) :
    List (StoreKey × CommitStore) → List StoreInfo × List (StoreKey × CommitStore)
  | [] => ([], [])
  | (key, store) :: rest =>
      if ext.shouldCommitStore key.name then
        let store1 := if ext.shouldSetStoreVersion key.name
                      then store.setVersion (version - 1) else store
        let (commitID, store2) := store1.commit
        let (sis, rest') := commitStoresList ext version rest
        if store2.typ = StoreType.transient then (sis, (key, store2) :: rest')
        else (⟨key.name, ⟨commitID⟩⟩ :: sis, (key, store2) :: rest')
      else
        let (sis, rest') := commitStoresList ext version rest
        (sis, (key, store) :: rest')

/-- `commitStores(version, storeMap)`: commit the eligible stores and collect
the new `CommitInfo`. -/
def commitStores (ext : Ext) (version : Int) (storeMap : List (StoreKey × CommitStore)) :
    CommitInfo × List (StoreKey × CommitStore) :=
  (⟨version, (commitStoresList ext version storeMap).1⟩,
   (commitStoresList ext version storeMap).2)

/-- `rs.Commit()`: commit every eligible substore at `lastCommitID.Version+1`,
write the new `CommitInfo` and the latest-version pointer as one batch, and
install the new root `CommitID`. -/
def commit (ext : Ext) (rs : RootMultiStore) : CommitID × RootMultiStore :=
  let version := rs.lastCommitID.version + 1
  let commitInfo := (commitStores ext version rs.stores).1
  let stores' := (commitStores ext version rs.stores).2
  let db' := setLatestVersion (setCommitInfo rs.db version commitInfo) version
  let commitID : CommitID := ⟨version, commitInfo.hash ext.isUpgradeBEP171⟩
  (commitID,
   { rs with db := db', stores := stores', lastCommitID := commitID })

/-- `n` successive `Commit()` calls. -/
def commitN (ext : Ext) (rs : RootMultiStore) : Nat → RootMultiStore
  | 0 => rs
  | n + 1 => (commit ext (commitN ext rs n)).2

/-- `[]byte(s)` for a string. -/
def strToBytes (s : String) : Bytes := s.toList.map Char.toNat

/-- Model of `merkle.SimpleProofsFromMap`'s proofs component: one existence
proof per map key, whose leaf value is the map entry for that key and whose
inclusion path recomputes the map's merkle root — the correctness contract of
the tendermint merkle library. -/
def simpleProofsFromMap (m : List (String × Bytes)) : List (String × ExistenceProof) :=
  m.map fun p => (p.1, ⟨strToBytes p.1, p.2, simpleHashFromMap m⟩)

/-- `CommitInfo.ProofOp(storeName)`: look up the existence proof for
`storeName` in the proofs from the name→hash map; panics when the name is not
a key of that map; otherwise converts it to an ics23 commitment op carrying
the leaf value `cmap[storeName]`. -/
def CommitInfo.proofOp (upg : Bool) (ci : CommitInfo) (storeName : String) :
    Outcome ProofOp :=
  let cmap := ci.toMap upg
  let proofs := simpleProofsFromMap cmap
  match assocGet storeName proofs with
  | none => Outcome.panics ("ProofOp for " ++ storeName ++ " but not registered store name")
  | some existProof =>
      Outcome.ok (ProofOp.simpleMerkleCommitment (strToBytes storeName) existProof)

/-- `strings.HasPrefix(path, "/")`, on the character list. -/
def startsWithSlash (path : String) : Bool :=
  match path.data with
  | '/' :: _ => true
  | _ => false

/-- `parsePath(path)`: must start with `/`; splits the remainder at its first
`/` (`strings.SplitN(path[1:], "/", 2)`) into the store name and the
re-prefixed subpath (empty when there is no further `/`). -/
def parsePath (path : String) : Except String (String × String) :=
  if startsWithSlash path then
    Except.ok (String.mk ((path.data.drop 1).takeWhile fun c => c ≠ '/'),
               String.mk ((path.data.drop 1).dropWhile fun c => c ≠ '/'))
  else Except.error ("invalid path: " ++ path)

/-- `rs.getStoreByName(name)`: the name→key index, then the live store map. -/
def getStoreByName (rs : RootMultiStore) (name : String) : Option CommitStore :=
  match assocGet name rs.keysByName with
  | none => none
  | some key => assocGet key rs.stores

/-- `rs.Query(req)`: route to the owning substore; unknown-request failures
for a bad path, an unknown store name, or a store that does not support
queries; when proof is requested and the subpath's query kind requires it,
fetch the `CommitInfo` at the response's height (internal error when absent)
and append the aggregation proof op. -/
def query (ext : Ext) (rs : RootMultiStore) (req : RequestQuery) :
    Outcome ResponseQuery :=
  match parsePath req.path with
  | Except.error msg => Outcome.ok (unknownRequestResult msg)
  | Except.ok (storeName, subpath) =>
      match getStoreByName rs storeName with
      | none => Outcome.ok (unknownRequestResult ("no such store: " ++ storeName))
      | some store =>
          match store.queryFn with
          | none =>
              Outcome.ok (unknownRequestResult
                ("store " ++ storeName ++ " doesn't support queries"))
          | some qf =>
              let res := qf { req with path := subpath }
              if req.prove && ext.requireProof subpath then
                match getCommitInfo rs.db res.height with
                | Except.error e => Outcome.ok (internalErrorResult e)
                | Except.ok commitInfo =>
                    if subpath = "/ics23-key" then
                      match commitInfo.proofOp ext.isUpgradeBEP171 storeName with
                      | Outcome.ok op =>
                          Outcome.ok { res with proofOps := res.proofOps ++ [op] }
                      | Outcome.error e => Outcome.error e
                      | Outcome.panics p => Outcome.panics p
                    else
                      Outcome.ok { res with proofOps := res.proofOps ++
                        [ProofOp.multiStore (strToBytes storeName) commitInfo.storeInfos] }
              else
                Outcome.ok res

/-! ### Properties of the map model and the aggregate hash -/

theorem assocGet_of_perm {K V : Type} [DecidableEq K] {m₁ m₂ : List (K × V)}
    (h : m₁.Perm m₂) :
    (m₁.map Prod.fst).Nodup → ∀ k, assocGet k m₁ = assocGet k m₂ := by
  induction h with
  | nil => intro _ _; rfl
  | cons x _ ih =>
      intro hn k
      simp only [List.map_cons, List.nodup_cons] at hn
      simp only [assocGet]
      split
      · rfl
      · exact ih hn.2 k
  | swap x y l =>
      intro hn k
      simp only [List.map_cons, List.nodup_cons, List.mem_cons] at hn
      have hxy : y.1 ≠ x.1 := fun h => hn.1 (Or.inl h)
      by_cases hx : x.1 = k <;> by_cases hy : y.1 = k
      · exact absurd (hy.trans hx.symm) hxy
      · simp [assocGet, hx, hy]
      · simp [assocGet, hx, hy]
      · simp [assocGet, hx, hy]
  | trans h₁ _ ih₁ ih₂ =>
      intro hn k
      rw [ih₁ hn k, ih₂ (((h₁.map Prod.fst).nodup_iff).mp hn) k]

theorem canonicalKeys_of_perm {m₁ m₂ : List (String × Bytes)} (h : m₁.Perm m₂) :
    canonicalKeys m₁ = canonicalKeys m₂ := by
  refine List.eq_of_perm_of_sorted ?_ (List.sorted_insertionSort _ _)
    (List.sorted_insertionSort _ _)
  exact (List.perm_insertionSort _ _).trans
    ((h.map Prod.fst).trans (List.perm_insertionSort _ _).symm)

theorem simpleHashFromMap_of_perm {m₁ m₂ : List (String × Bytes)} (h : m₁.Perm m₂)
    (hn : (m₁.map Prod.fst).Nodup) : simpleHashFromMap m₁ = simpleHashFromMap m₂ := by
  have hget : ∀ k, assocGet k m₁ = assocGet k m₂ := assocGet_of_perm h hn
  simp [simpleHashFromMap, canonicalKeys_of_perm h, hget]

theorem assocSet_append_of_not_mem {K V : Type} [DecidableEq K] {l : List (K × V)} {k : K}
    (h : k ∉ l.map Prod.fst) (v : V) : assocSet l k v = l ++ [(k, v)] := by
  induction l with
  | nil => rfl
  | cons p rest ih =>
      simp only [List.map_cons, List.mem_cons] at h
      have hp : p.1 ≠ k := fun he => h (Or.inl he.symm)
      simp only [assocSet, hp, if_false]
      rw [ih fun hm => h (Or.inr hm)]
      rfl

theorem buildMap_go (f : StoreInfo → Bytes) :
    ∀ (infos : List StoreInfo) (acc : List (String × Bytes)),
    (∀ si ∈ infos, si.name ∉ acc.map Prod.fst) →
    (infos.map StoreInfo.name).Nodup →
    infos.foldl (fun m si => assocSet m si.name (f si)) acc =
      acc ++ infos.map fun si => (si.name, f si)
  | [], acc, _, _ => by simp
  | si :: rest, acc, hdisj, hn => by
      simp only [List.map_cons, List.nodup_cons] at hn
      simp only [List.foldl_cons]
      rw [assocSet_append_of_not_mem (hdisj si (List.mem_cons_self si rest)) (f si)]
      rw [buildMap_go f rest (acc ++ [(si.name, f si)]) ?_ hn.2]
      · simp
      · intro si' hsi'
        simp only [List.map_append, List.mem_append]
        rintro (hmem | hmem)
        · exact hdisj si' (List.mem_cons_of_mem si hsi') hmem
        · simp only [List.map_cons, List.map_nil, List.mem_singleton] at hmem
          exact hn.1 (hmem ▸ List.mem_map_of_mem StoreInfo.name hsi')

theorem buildMap_eq_map (f : StoreInfo → Bytes) (infos : List StoreInfo)
    (hn : (infos.map StoreInfo.name).Nodup) :
    buildMap f infos = infos.map fun si => (si.name, f si) := by
  have := buildMap_go f infos [] (by simp) hn
  simpa [buildMap] using this

/-! ### Claim C2: order independence of `CommitInfo.Hash` -/

/-- C2 (counterexample): two `CommitInfo` values whose `StoreInfos` slices are
permutations of each other (hence carry the same set of (name, hash) pairs)
but whose aggregate hashes differ, because a duplicated name makes the
last-written entry win in the name→hash map.  Refutes the claim as stated
for arbitrary `CommitInfo` values. -/
theorem commitInfo_hash_perm_counterexample :
    (([⟨"a", ⟨⟨1, [5]⟩⟩⟩, ⟨"a", ⟨⟨1, [6]⟩⟩⟩] : List StoreInfo).Perm
      [⟨"a", ⟨⟨1, [6]⟩⟩⟩, ⟨"a", ⟨⟨1, [5]⟩⟩⟩]) ∧
    (CommitInfo.hash true ⟨1, [⟨"a", ⟨⟨1, [5]⟩⟩⟩, ⟨"a", ⟨⟨1, [6]⟩⟩⟩]⟩ ≠
      CommitInfo.hash true ⟨1, [⟨"a", ⟨⟨1, [6]⟩⟩⟩, ⟨"a", ⟨⟨1, [5]⟩⟩⟩]⟩) := by
  decide

/-- C2 (amended): for any two `CommitInfo` values whose `StoreInfos` slices
are permutations of each other and whose store names are pairwise distinct
(the documented `CommitInfo` invariant), `Hash` returns the same byte string,
in both protocol-version regimes: the hash depends only on the set of
(name, per-store-hash) pairs, not on registration or insertion order. -/
theorem commitInfo_hash_perm (upg : Bool) (ci₁ ci₂ : CommitInfo)
    (hperm : ci₁.storeInfos.Perm ci₂.storeInfos)
    (hn : (ci₁.storeInfos.map StoreInfo.name).Nodup) :
    ci₁.hash upg = ci₂.hash upg := by
  have hn₂ : (ci₂.storeInfos.map StoreInfo.name).Nodup :=
    ((hperm.map StoreInfo.name).nodup_iff).mp hn
  have main : ∀ f : StoreInfo → Bytes,
      simpleHashFromMap (buildMap f ci₁.storeInfos) =
        simpleHashFromMap (buildMap f ci₂.storeInfos) := by
    intro f
    rw [buildMap_eq_map f _ hn, buildMap_eq_map f _ hn₂]
    refine simpleHashFromMap_of_perm (hperm.map _) ?_
    simpa [List.map_map, Function.comp_def] using hn
  unfold CommitInfo.hash
  cases upg
  · simpa using main StoreInfo.hash
  · simpa using main StoreInfo.getHash

/-- C2 witness: the amended theorem applied at a concrete pair of two-store
manifests that are permutations of each other with distinct names. -/
theorem commitInfo_hash_perm_witness :
    (([⟨"acc", ⟨⟨1, [5]⟩⟩⟩, ⟨"gov", ⟨⟨1, [6]⟩⟩⟩] : List StoreInfo).Perm
      [⟨"gov", ⟨⟨1, [6]⟩⟩⟩, ⟨"acc", ⟨⟨1, [5]⟩⟩⟩]) ∧
    ((([⟨"acc", ⟨⟨1, [5]⟩⟩⟩, ⟨"gov", ⟨⟨1, [6]⟩⟩⟩] : List StoreInfo).map
        StoreInfo.name).Nodup) ∧
    CommitInfo.hash false ⟨1, [⟨"acc", ⟨⟨1, [5]⟩⟩⟩, ⟨"gov", ⟨⟨1, [6]⟩⟩⟩]⟩ =
      CommitInfo.hash false ⟨1, [⟨"gov", ⟨⟨1, [6]⟩⟩⟩, ⟨"acc", ⟨⟨1, [5]⟩⟩⟩]⟩ :=
  ⟨by decide, by decide,
    commitInfo_hash_perm false ⟨1, [⟨"acc", ⟨⟨1, [5]⟩⟩⟩, ⟨"gov", ⟨⟨1, [6]⟩⟩⟩]⟩
      ⟨1, [⟨"gov", ⟨⟨1, [6]⟩⟩⟩, ⟨"acc", ⟨⟨1, [5]⟩⟩⟩]⟩ (by decide) (by decide)⟩

theorem assocGet_map_of_mem (f : StoreInfo → Bytes) {si : StoreInfo} :
    ∀ infos : List StoreInfo, si ∈ infos → (infos.map StoreInfo.name).Nodup →
    assocGet si.name (infos.map fun s => (s.name, f s)) = some (f si)
  | [], hmem, _ => absurd hmem (List.not_mem_nil si)
  | s :: rest, hmem, hn => by
      simp only [List.map_cons, List.nodup_cons] at hn
      rcases List.mem_cons.mp hmem with rfl | hmem'
      · simp [assocGet]
      · have hne : s.name ≠ si.name := by
          intro he
          exact hn.1 (he ▸ List.mem_map_of_mem StoreInfo.name hmem')
        simp only [List.map_cons, assocGet, hne, if_false]
        exact assocGet_map_of_mem f rest hmem' hn.2

/-! ### Claim C5: the protocol-version switch inside `CommitInfo.Hash` -/

/-- C5: the name→hash mapping used by `Hash` is built with the per-store hash
selected by the protocol version: with the BEP171 upgrade active the entry for
a store is its raw `CommitID` hash, and without it the entry is
`StoreInfo.Hash` (the hash of the length-prefixed serialized core); the two
regimes are distinct code paths, witnessed by a manifest whose two hashes
differ. -/
theorem commitInfo_hash_upgrade_switch (upg : Bool) (ci : CommitInfo) (si : StoreInfo)
    (hmem : si ∈ ci.storeInfos) (hn : (ci.storeInfos.map StoreInfo.name).Nodup) :
    (ci.hash upg = simpleHashFromMap
        (buildMap (if upg then StoreInfo.getHash else StoreInfo.hash) ci.storeInfos) ∧
      assocGet si.name
          (buildMap (if upg then StoreInfo.getHash else StoreInfo.hash) ci.storeInfos) =
        some (if upg then si.core.commitID.hash else StoreInfo.hash si)) ∧
    CommitInfo.hash true ⟨1, [⟨"acc", ⟨⟨1, [5]⟩⟩⟩]⟩ ≠
      CommitInfo.hash false ⟨1, [⟨"acc", ⟨⟨1, [5]⟩⟩⟩]⟩ := by
  refine ⟨⟨?_, ?_⟩, by decide⟩
  · cases upg <;> rfl
  · rw [buildMap_eq_map _ _ hn]
    cases upg
    · simpa using assocGet_map_of_mem StoreInfo.hash ci.storeInfos hmem hn
    · simpa [StoreInfo.getHash] using
        assocGet_map_of_mem StoreInfo.getHash ci.storeInfos hmem hn

/-- C5 witness: the switch theorem applied at a concrete one-store manifest. -/
theorem commitInfo_hash_upgrade_switch_witness :
    ((⟨"acc", ⟨⟨1, [5]⟩⟩⟩ : StoreInfo) ∈
        (⟨1, [⟨"acc", ⟨⟨1, [5]⟩⟩⟩]⟩ : CommitInfo).storeInfos) ∧
    (((⟨1, [⟨"acc", ⟨⟨1, [5]⟩⟩⟩]⟩ : CommitInfo).storeInfos.map StoreInfo.name).Nodup) ∧
    assocGet "acc" (buildMap StoreInfo.getHash
        (⟨1, [⟨"acc", ⟨⟨1, [5]⟩⟩⟩]⟩ : CommitInfo).storeInfos) = some [5] :=
  ⟨by decide, by decide, by
    have h := (commitInfo_hash_upgrade_switch true ⟨1, [⟨"acc", ⟨⟨1, [5]⟩⟩⟩]⟩
      ⟨"acc", ⟨⟨1, [5]⟩⟩⟩ (by decide) (by decide)).1.2
    simpa using h⟩

theorem assocGet_mapProof (r : Bytes) (s : String) :
    ∀ m : List (String × Bytes),
    assocGet s (m.map fun p => (p.1, (⟨strToBytes p.1, p.2, r⟩ : ExistenceProof))) =
      (assocGet s m).map fun v => (⟨strToBytes s, v, r⟩ : ExistenceProof)
  | [] => rfl
  | p :: rest => by
      simp only [List.map_cons, assocGet]
      by_cases h : p.1 = s
      · subst h; simp
      · simp only [h, if_false]
        exact assocGet_mapProof r s rest

/-- The map built by `toMap` is the map hashed by `Hash`. -/
theorem commitInfo_hash_eq_hash_toMap (upg : Bool) (ci : CommitInfo) :
    ci.hash upg = simpleHashFromMap (ci.toMap upg) := by
  cases upg <;> rfl

/-! ### Claim C6: `CommitInfo.ProofOp` -/

/-- C6: for a store name `s` that is a key of the name→hash mapping of `ci`,
`ProofOp` yields an existence proof whose leaf value is the per-store hash
recorded for `s` and whose computed root is `ci.Hash()`; for a name that is
not a key of the mapping it panics rather than returning an error. -/
theorem commitInfo_proofOp_spec (upg : Bool) (ci : CommitInfo) (s : String) :
    (∀ v, assocGet s (ci.toMap upg) = some v →
      ci.proofOp upg s = Outcome.ok
        (ProofOp.simpleMerkleCommitment (strToBytes s) ⟨strToBytes s, v, ci.hash upg⟩)) ∧
    (assocGet s (ci.toMap upg) = none →
      ci.proofOp upg s =
        Outcome.panics ("ProofOp for " ++ s ++ " but not registered store name")) := by
  constructor
  · intro v hv
    unfold CommitInfo.proofOp simpleProofsFromMap
    dsimp only
    rw [assocGet_mapProof, hv, commitInfo_hash_eq_hash_toMap]
    rfl
  · intro hv
    unfold CommitInfo.proofOp simpleProofsFromMap
    dsimp only
    rw [assocGet_mapProof, hv]
    rfl

/-- C6 witness: `ProofOp` evaluated on a concrete manifest, on a present name
(existence proof with the recorded leaf hash and the aggregate root) and on an
absent one (panic). -/
theorem commitInfo_proofOp_spec_witness :
    CommitInfo.proofOp true ⟨1, [⟨"acc", ⟨⟨1, [5]⟩⟩⟩]⟩ "acc" =
      Outcome.ok (ProofOp.simpleMerkleCommitment (strToBytes "acc")
        ⟨strToBytes "acc", [5], CommitInfo.hash true ⟨1, [⟨"acc", ⟨⟨1, [5]⟩⟩⟩]⟩⟩) ∧
    CommitInfo.proofOp true ⟨1, [⟨"acc", ⟨⟨1, [5]⟩⟩⟩]⟩ "gov" =
      Outcome.panics "ProofOp for gov but not registered store name" :=
  ⟨(commitInfo_proofOp_spec true ⟨1, [⟨"acc", ⟨⟨1, [5]⟩⟩⟩]⟩ "acc").1 [5] (by decide),
   by
    have h := (commitInfo_proofOp_spec true ⟨1, [⟨"acc", ⟨⟨1, [5]⟩⟩⟩]⟩ "gov").2 (by decide)
    simpa using h⟩

/-! ### Claim C9: contents of the `CommitInfo` produced by `commitStores` -/

/-- The predicate selecting the substores that participate in commitments:
accepted by the commit policy and not `Transient`. -/
def participates (ext : Ext) (p : StoreKey × CommitStore) : Bool :=
  ext.shouldCommitStore p.1.name && decide (p.2.typ ≠ StoreType.transient)

/-- The `StoreInfo` recorded for one participating substore: its key's name
and the `CommitID` returned by its `Commit()` (after the optional version
synchronization). -/
def recordedInfo (ext : Ext) (version : Int) (p : StoreKey × CommitStore) : StoreInfo :=
  ⟨p.1.name,
   ⟨((if ext.shouldSetStoreVersion p.1.name then p.2.setVersion (version - 1)
      else p.2).commit).1⟩⟩

theorem commitStoresList_storeInfos (ext : Ext) (version : Int) :
    ∀ stores : List (StoreKey × CommitStore),
    (commitStoresList ext version stores).1 =
      (stores.filter (participates ext)).map (recordedInfo ext version)
  | [] => rfl
  | (key, store) :: rest => by
      have ih := commitStoresList_storeInfos ext version rest
      by_cases hc : ext.shouldCommitStore key.name
      · by_cases ht : store.typ = StoreType.transient
        · have h2 : ((if ext.shouldSetStoreVersion key.name
              then store.setVersion (version - 1) else store).commit).2.typ =
              StoreType.transient := by
            by_cases hs : ext.shouldSetStoreVersion key.name <;>
              simp [hs, CommitStore.commit, CommitStore.setVersion, ht]
          simp [commitStoresList, hc, h2, participates, ht, ih]
        · have h2 : ((if ext.shouldSetStoreVersion key.name
              then store.setVersion (version - 1) else store).commit).2.typ ≠
              StoreType.transient := by
            by_cases hs : ext.shouldSetStoreVersion key.name <;>
              simp [hs, CommitStore.commit, CommitStore.setVersion, ht]
          simp [commitStoresList, hc, h2, participates, ht, ih, recordedInfo]
      · simp [commitStoresList, hc, participates, ih]

/-- C9: the `CommitInfo` produced by `commitStores` carries exactly one
`StoreInfo` per live substore that the commit policy accepts and whose store
type is not `Transient` — their recorded names are exactly the names of those
substores, in iteration order — and when the live store names are unique the
recorded names are unique; in particular no `Transient` store contributes an
entry. -/
theorem commitStores_storeInfos (ext : Ext) (version : Int)
    (stores : List (StoreKey × CommitStore))
    (hn : (stores.map fun p => p.1.name).Nodup) :
    ((commitStores ext version stores).1.storeInfos =
      (stores.filter (participates ext)).map (recordedInfo ext version)) ∧
    ((commitStores ext version stores).1.storeInfos.map StoreInfo.name =
      ((stores.filter (participates ext)).map fun p => p.1.name)) ∧
    ((commitStores ext version stores).1.storeInfos.map StoreInfo.name).Nodup ∧
    (∀ p ∈ stores, p.2.typ = StoreType.transient →
      ∀ si ∈ (commitStores ext version stores).1.storeInfos, si.name ≠ p.1.name) := by
  have hlist : (commitStores ext version stores).1.storeInfos =
      (stores.filter (participates ext)).map (recordedInfo ext version) := by
    simp [commitStores, commitStoresList_storeInfos]
  have hnames : (commitStores ext version stores).1.storeInfos.map StoreInfo.name =
      (stores.filter (participates ext)).map fun p => p.1.name := by
    rw [hlist, List.map_map]; rfl
  have hfiltnodup : (((stores.filter (participates ext)).map fun p => p.1.name)).Nodup :=
    List.Nodup.sublist ((List.filter_sublist stores).map fun p => p.1.name) hn
  refine ⟨hlist, hnames, hnames ▸ hfiltnodup, ?_⟩
  intro p hp htrans si hsi heq
  rw [hlist] at hsi
  rcases List.mem_map.mp hsi with ⟨q, hq, rfl⟩
  have hqf := List.of_mem_filter hq
  have hqmem := List.mem_of_mem_filter hq
  simp only [participates, Bool.and_eq_true, decide_eq_true_eq] at hqf
  have hname : q.1.name = p.1.name := heq
  have hqp : q = p := List.inj_on_of_nodup_map hn hqmem hp hname
  exact hqf.2 (hqp ▸ htrans)

/-! ### Lookup/update lemmas for the database model -/

theorem assocGet_assocSet_self {K V : Type} [DecidableEq K] (l : List (K × V)) (k : K) (v : V) :
    assocGet k (assocSet l k v) = some v := by
  induction l with
  | nil => simp [assocGet, assocSet]
  | cons p rest ih =>
      by_cases h : p.1 = k
      · simp [assocGet, assocSet, h]
      · simp [assocGet, assocSet, h, ih]

theorem assocGet_assocSet_ne {K V : Type} [DecidableEq K] (l : List (K × V)) {k k' : K}
    (h : k ≠ k') (v : V) : assocGet k (assocSet l k' v) = assocGet k l := by
  have hne : ¬(k' = k) := fun he => h he.symm
  induction l with
  | nil => simp [assocGet, assocSet, hne]
  | cons p rest ih =>
      by_cases hp : p.1 = k'
      · have hpk : ¬(p.1 = k) := by rw [hp]; exact hne
        simp [assocGet, assocSet, hp, hne, hpk]
      · simp only [assocSet, hp, if_false, assocGet]
        split
        · rfl
        · exact ih

/-- Reading the `CommitInfo` record for `w` is unaffected by the batch write
of a `Commit()` at a different version. -/
theorem getCommitInfo_after_batch (db : DB) (version w : Int) (ci : CommitInfo)
    (h : w ≠ version) :
    getCommitInfo (setLatestVersion (setCommitInfo db version ci) version) w =
      getCommitInfo db w := by
  unfold getCommitInfo setLatestVersion setCommitInfo DB.set DB.get
  rw [assocGet_assocSet_ne _ (by simp), assocGet_assocSet_ne _ (by simp [h])]

/-- Reading the `CommitInfo` record just written by a `Commit()` batch. -/
theorem getCommitInfo_after_batch_self (db : DB) (version : Int) (ci : CommitInfo) :
    getCommitInfo (setLatestVersion (setCommitInfo db version ci) version) version =
      Except.ok ci := by
  unfold getCommitInfo setLatestVersion setCommitInfo DB.set DB.get
  rw [assocGet_assocSet_ne _ (by simp), assocGet_assocSet_self]

/-! ### Claim C1: no partial state on load failure -/

/-- C1 (counterexample): on the `version == 0` path, a per-store
instantiation failure after a successful one leaves the already-loaded store
installed in the stores map: `LoadVersion(0)` returns an error yet the
stores map differs from the pre-call one, refuting the claim for `v == 0`.
The concrete multi-store mounts two IAVL stores "a" and "b"; the external
loader succeeds for "a" and fails for "b". -/
theorem loadVersion_partial_install_counterexample :
    (loadVersion
        ⟨false, fun _ => true, fun _ => false, fun _ => false,
          fun key _ _ => if key.name = "a"
            then Except.ok ⟨StoreType.iavl, 0, fun _ => [], none⟩
            else Except.error "boom"⟩
        ⟨[], ⟨3, [7]⟩, PruningStrategy.syncable,
          [(⟨0, "a", false⟩, ⟨⟨0, "a", false⟩, false, StoreType.iavl⟩),
           (⟨1, "b", false⟩, ⟨⟨1, "b", false⟩, false, StoreType.iavl⟩)],
          [], [("a", ⟨0, "a", false⟩), ("b", ⟨1, "b", false⟩)]⟩
        0).1 = Outcome.error "failed to load rootMultiStore: boom" ∧
    (loadVersion
        ⟨false, fun _ => true, fun _ => false, fun _ => false,
          fun key _ _ => if key.name = "a"
            then Except.ok ⟨StoreType.iavl, 0, fun _ => [], none⟩
            else Except.error "boom"⟩
        ⟨[], ⟨3, [7]⟩, PruningStrategy.syncable,
          [(⟨0, "a", false⟩, ⟨⟨0, "a", false⟩, false, StoreType.iavl⟩),
           (⟨1, "b", false⟩, ⟨⟨1, "b", false⟩, false, StoreType.iavl⟩)],
          [], [("a", ⟨0, "a", false⟩), ("b", ⟨1, "b", false⟩)]⟩
        0).2.stores.map Prod.fst ≠ ([] : List (StoreKey × CommitStore)).map Prod.fst := by
  constructor
  · decide
  · decide

/-- C1 (amended): when `LoadVersion(ver)` returns an error, the state is
fully unchanged whenever `ver ≠ 0` (the `version > 0` path builds its new
store map locally and only swaps it in on full success); on the `ver == 0`
path `lastCommitID` and the database are unchanged, but stores instantiated
before the failing one remain installed. -/
theorem loadVersion_error_state (ext : Ext) (rs : RootMultiStore) (ver : Int) (msg : String)
    (herr : (loadVersion ext rs ver).1 = Outcome.error msg) :
    (ver ≠ 0 → (loadVersion ext rs ver).2 = rs) ∧
    ((loadVersion ext rs ver).2.lastCommitID = rs.lastCommitID ∧
      (loadVersion ext rs ver).2.db = rs.db ∧
      (loadVersion ext rs ver).2.storesParams = rs.storesParams) := by
  unfold loadVersion at herr ⊢
  by_cases hver : ver = 0
  · rw [if_pos hver] at herr ⊢
    refine ⟨fun h => absurd hver h, ?_⟩
    split at herr
    · exact Outcome.noConfusion herr
    · exact ⟨rfl, rfl, rfl⟩
    · exact Outcome.noConfusion herr
  · rw [if_neg hver] at herr ⊢
    split at herr
    · exact ⟨fun _ => rfl, rfl, rfl, rfl⟩
    · split at herr
      · exact ⟨fun _ => rfl, rfl, rfl, rfl⟩
      · exact ⟨fun _ => rfl, rfl, rfl, rfl⟩
      · split at herr
        · exact ⟨fun _ => rfl, rfl, rfl, rfl⟩
        · exact ⟨fun _ => rfl, rfl, rfl, rfl⟩
        · exact Outcome.noConfusion herr

/-- C1 witness: the amended theorem applied to a failing `LoadVersion(5)` on
a multi-store whose database lacks the version-5 manifest. -/
theorem loadVersion_error_state_witness :
    (loadVersion
        ⟨false, fun _ => true, fun _ => false, fun _ => false,
          fun _ _ _ => Except.error "unused"⟩
        ⟨[], ⟨0, []⟩, PruningStrategy.syncable, [], [], []⟩ 5).2 =
      ⟨[], ⟨0, []⟩, PruningStrategy.syncable, [], [], []⟩ :=
  (loadVersion_error_state
      ⟨false, fun _ => true, fun _ => false, fun _ => false,
        fun _ _ _ => Except.error "unused"⟩
      ⟨[], ⟨0, []⟩, PruningStrategy.syncable, [], [], []⟩ 5
      "failed to get rootMultiStore: no data" (by decide)).1 (by decide)

/-- C9 witness: the characterization applied to a concrete store map holding
one eligible IAVL store and one transient store — only the IAVL store's name
is recorded. -/
theorem commitStores_storeInfos_witness :
    (commitStores
        ⟨true, fun _ => true, fun _ => false, fun _ => false,
          fun _ _ _ => Except.error "unused"⟩ 6
        [(⟨0, "acc", false⟩, ⟨StoreType.iavl, 5, fun v => [v.toNat], none⟩),
         (⟨1, "tmp", true⟩, ⟨StoreType.transient, 0, fun _ => [], none⟩)]).1.storeInfos.map
      StoreInfo.name = ["acc"] := by
  have h := (commitStores_storeInfos
      ⟨true, fun _ => true, fun _ => false, fun _ => false,
        fun _ _ _ => Except.error "unused"⟩ 6
      [(⟨0, "acc", false⟩, ⟨StoreType.iavl, 5, fun v => [v.toNat], none⟩),
       (⟨1, "tmp", true⟩, ⟨StoreType.transient, 0, fun _ => [], none⟩)]
      (by decide)).2.1
  rw [h]
  rfl

/-! ### Claim C8: the genesis path -/

/-- C8: `LoadVersion(0)` consults no persisted state — its outcome and its
effect on every non-database component are the same for any contents of the
backing database — and on success it leaves `LastCommitID()` equal to the
zero `CommitID {0, nil}`; and when the latest-version pointer `"s/latest"`
is absent, `LoadLatestVersion()` is exactly `LoadVersion(0)`. -/
theorem loadVersion_zero_genesis (ext : Ext) (rs : RootMultiStore) :
    (∀ d : DB, (loadVersion ext { rs with db := d } 0).1 = (loadVersion ext rs 0).1 ∧
      (loadVersion ext { rs with db := d } 0).2 =
        { (loadVersion ext rs 0).2 with db := d }) ∧
    ((loadVersion ext rs 0).1 = Outcome.ok () →
      (loadVersion ext rs 0).2.lastCommitID = CommitID.zero) ∧
    (rs.db.get DBKey.latest = none → loadLatestVersion ext rs = loadVersion ext rs 0) := by
  refine ⟨?_, ?_, ?_⟩
  · intro d
    unfold loadVersion
    rw [if_pos rfl, if_pos rfl]
    cases h0 : loadLoop0 ext rs.pruning rs.storesParams rs.stores with
    | mk oc stores' => cases oc <;> exact ⟨rfl, rfl⟩
  · intro hok
    unfold loadVersion at hok ⊢
    rw [if_pos rfl] at hok ⊢
    split at hok
    · rfl
    · exact Outcome.noConfusion hok
    · exact Outcome.noConfusion hok
  · intro habs
    unfold loadLatestVersion getLatestVersion
    rw [habs]

/-- C8 witness: the genesis theorem applied to a concrete multi-store whose
database holds a version-3 manifest but no latest-version pointer. -/
theorem loadVersion_zero_genesis_witness :
    (loadVersion
        ⟨false, fun _ => true, fun _ => false, fun _ => false,
          fun _ _ _ => Except.error "unused"⟩
        ⟨[(DBKey.commitInfoAt 3, DBVal.infoVal ⟨3, []⟩)], ⟨3, [9]⟩,
          PruningStrategy.syncable, [], [], []⟩ 0).2.lastCommitID = CommitID.zero ∧
    loadLatestVersion
        ⟨false, fun _ => true, fun _ => false, fun _ => false,
          fun _ _ _ => Except.error "unused"⟩
        ⟨[(DBKey.commitInfoAt 3, DBVal.infoVal ⟨3, []⟩)], ⟨3, [9]⟩,
          PruningStrategy.syncable, [], [], []⟩ =
      loadVersion
        ⟨false, fun _ => true, fun _ => false, fun _ => false,
          fun _ _ _ => Except.error "unused"⟩
        ⟨[(DBKey.commitInfoAt 3, DBVal.infoVal ⟨3, []⟩)], ⟨3, [9]⟩,
          PruningStrategy.syncable, [], [], []⟩ 0 :=
  ⟨(loadVersion_zero_genesis
      ⟨false, fun _ => true, fun _ => false, fun _ => false,
        fun _ _ _ => Except.error "unused"⟩
      ⟨[(DBKey.commitInfoAt 3, DBVal.infoVal ⟨3, []⟩)], ⟨3, [9]⟩,
        PruningStrategy.syncable, [], [], []⟩).2.1 (by decide),
   (loadVersion_zero_genesis
      ⟨false, fun _ => true, fun _ => false, fun _ => false,
        fun _ _ _ => Except.error "unused"⟩
      ⟨[(DBKey.commitInfoAt 3, DBVal.infoVal ⟨3, []⟩)], ⟨3, [9]⟩,
        PruningStrategy.syncable, [], [], []⟩).2.2 (by decide)⟩

/-! ### Claim C10: a manifest name with no mounted key panics the load -/

theorem nameToKey_panics_of_unmounted (name : String) :
    ∀ storesParams : List (StoreKey × StoreParams),
    (∀ p ∈ storesParams, p.1.name ≠ name) →
    nameToKey storesParams name = Outcome.panics ("Unknown name " ++ name)
  | [], _ => rfl
  | (key, params) :: rest, h => by
      have hk : key.name ≠ name := h (key, params) (List.mem_cons_self _ _)
      simp only [nameToKey, hk, if_false]
      exact nameToKey_panics_of_unmounted name rest fun p hp => h p (List.mem_cons_of_mem _ hp)

theorem nameToKey_ne_error (name : String) :
    ∀ (storesParams : List (StoreKey × StoreParams)) (e : String),
    nameToKey storesParams name ≠ Outcome.error e
  | [], e => by simp [nameToKey]
  | (key, params) :: rest, e => by
      simp only [nameToKey]
      split
      · simp
      · exact nameToKey_ne_error name rest e

theorem buildInfos_panics_of_unmounted (storesParams : List (StoreKey × StoreParams)) :
    ∀ (sis : List StoreInfo) (acc : List (StoreKey × StoreInfo)),
    (∃ si ∈ sis, ∀ p ∈ storesParams, p.1.name ≠ si.name) →
    ∃ msg, buildInfos storesParams acc sis = Outcome.panics msg
  | [], _, h => absurd h (by simp)
  | si :: rest, acc, h => by
      rcases h with ⟨si', hmem, hbad⟩
      rcases List.mem_cons.mp hmem with rfl | hmem'
      · refine ⟨"Unknown name " ++ si'.name, ?_⟩
        simp only [buildInfos, nameToKey_panics_of_unmounted si'.name storesParams hbad]
      · cases hk : nameToKey storesParams si.name with
        | ok key =>
            simp only [buildInfos, hk]
            exact buildInfos_panics_of_unmounted storesParams rest
              (assocSet acc key si) ⟨si', hmem', hbad⟩
        | error e => exact absurd hk (nameToKey_ne_error si.name storesParams e)
        | panics p => exact ⟨p, by simp only [buildInfos, hk]⟩

/-- C10: for `v > 0`, when the persisted `CommitInfo` for `v` contains a
`StoreInfo` whose name matches no mounted store key, `LoadVersion(v)` panics
(through the `nameToKey` lookup) instead of returning the failure as an
error. -/
theorem loadVersion_unknown_name_panics (ext : Ext) (rs : RootMultiStore) (ver : Int)
    (cInfo : CommitInfo) (hver : 0 < ver)
    (hgc : getCommitInfo rs.db ver = Except.ok cInfo)
    (hbad : ∃ si ∈ cInfo.storeInfos, ∀ p ∈ rs.storesParams, p.1.name ≠ si.name) :
    ∃ msg, (loadVersion ext rs ver).1 = Outcome.panics msg := by
  rcases buildInfos_panics_of_unmounted rs.storesParams cInfo.storeInfos [] hbad with ⟨msg, hbi⟩
  refine ⟨msg, ?_⟩
  unfold loadVersion
  rw [if_neg (by omega : ¬ver = 0), hgc]
  dsimp only
  rw [hbi]

/-- C10 witness: the theorem applied to a multi-store that mounts only "acc"
while the persisted version-1 manifest records a store named "gone". -/
theorem loadVersion_unknown_name_panics_witness :
    ∃ msg,
      (loadVersion
          ⟨false, fun _ => true, fun _ => false, fun _ => false,
            fun _ _ _ => Except.error "unused"⟩
          ⟨[(DBKey.commitInfoAt 1, DBVal.infoVal ⟨1, [⟨"gone", ⟨⟨1, [4]⟩⟩⟩]⟩)],
            ⟨0, []⟩, PruningStrategy.syncable,
            [(⟨0, "acc", false⟩, ⟨⟨0, "acc", false⟩, false, StoreType.iavl⟩)],
            [], [("acc", ⟨0, "acc", false⟩)]⟩ 1).1 = Outcome.panics msg :=
  loadVersion_unknown_name_panics
    ⟨false, fun _ => true, fun _ => false, fun _ => false,
      fun _ _ _ => Except.error "unused"⟩
    ⟨[(DBKey.commitInfoAt 1, DBVal.infoVal ⟨1, [⟨"gone", ⟨⟨1, [4]⟩⟩⟩]⟩)],
      ⟨0, []⟩, PruningStrategy.syncable,
      [(⟨0, "acc", false⟩, ⟨⟨0, "acc", false⟩, false, StoreType.iavl⟩)],
      [], [("acc", ⟨0, "acc", false⟩)]⟩ 1
    ⟨1, [⟨"gone", ⟨⟨1, [4]⟩⟩⟩]⟩ (by decide) (by decide) (by decide)

/-! ### Claim C3: `LoadVersion` right after `Commit` round-trips -/

theorem nameToKey_ok_of_mounted (name : String) :
    ∀ storesParams : List (StoreKey × StoreParams),
    (∃ p ∈ storesParams, p.1.name = name) →
    ∃ key, nameToKey storesParams name = Outcome.ok key
  | [], h => absurd h (by simp)
  | (key, params) :: rest, h => by
      by_cases hk : key.name = name
      · exact ⟨key, by simp [nameToKey, hk]⟩
      · rcases h with ⟨p, hp, hname⟩
        rcases List.mem_cons.mp hp with rfl | hp'
        · exact absurd hname hk
        · rcases nameToKey_ok_of_mounted name rest ⟨p, hp', hname⟩ with ⟨key', hkey'⟩
          exact ⟨key', by simp [nameToKey, hk, hkey']⟩

theorem buildInfos_ok_of_covered (storesParams : List (StoreKey × StoreParams)) :
    ∀ (sis : List StoreInfo) (acc : List (StoreKey × StoreInfo)),
    (∀ si ∈ sis, ∃ p ∈ storesParams, p.1.name = si.name) →
    ∃ infos, buildInfos storesParams acc sis = Outcome.ok infos
  | [], acc, _ => ⟨acc, rfl⟩
  | si :: rest, acc, h => by
      rcases nameToKey_ok_of_mounted si.name storesParams
        (h si (List.mem_cons_self _ _)) with ⟨key, hkey⟩
      rcases buildInfos_ok_of_covered storesParams rest (assocSet acc key si)
        (fun si' h' => h si' (List.mem_cons_of_mem _ h')) with ⟨infos, hinfos⟩
      exact ⟨infos, by simp only [buildInfos, hkey]; exact hinfos⟩

theorem loadAll_ok (ext : Ext) (pruning : PruningStrategy)
    (infos : List (StoreKey × StoreInfo)) :
    ∀ (params : List (StoreKey × StoreParams)) (acc : List (StoreKey × CommitStore)),
    (∀ p ∈ params, ∀ id, ∃ s,
      loadCommitStoreFromParams ext pruning p.1 id p.2 = Outcome.ok s) →
    ∃ stores, loadAll ext pruning infos acc params = Outcome.ok stores
  | [], acc, _ => ⟨acc, rfl⟩
  | (key, params) :: rest, acc, h => by
      obtain ⟨s, hs⟩ := h (key, params) (List.mem_cons_self _ _)
        (match assocGet key infos with
         | some info => info.core.commitID
         | none => CommitID.zero)
      obtain ⟨stores, hst⟩ := loadAll_ok ext pruning infos rest (assocSet acc key s)
        (fun p hp => h p (List.mem_cons_of_mem _ hp))
      refine ⟨stores, ?_⟩
      simp only [loadAll]
      rw [hs]
      exact hst

/-- A successful `version > 0` load, assembled from its three stages. -/
theorem loadVersion_ok (ext : Ext) (rs : RootMultiStore) (ver : Int) (cInfo : CommitInfo)
    (infos : List (StoreKey × StoreInfo)) (newStores : List (StoreKey × CommitStore))
    (hver : ver ≠ 0)
    (hgc : getCommitInfo rs.db ver = Except.ok cInfo)
    (hbi : buildInfos rs.storesParams [] cInfo.storeInfos = Outcome.ok infos)
    (hla : loadAll ext rs.pruning infos [] rs.storesParams = Outcome.ok newStores) :
    loadVersion ext rs ver =
      (Outcome.ok (),
       { rs with lastCommitID := cInfo.commitID ext.isUpgradeBEP171,
                 stores := newStores }) := by
  unfold loadVersion
  rw [if_neg hver, hgc]
  dsimp only
  rw [hbi]
  dsimp only
  rw [hla]

/-- C3: `LoadVersion(v)` immediately after a `Commit()` that produced version
`v` succeeds and restores `LastCommitID()` to exactly the `CommitID` that
`Commit()` returned — the batch persisted both the manifest and the pointer.
Hypotheses: the pre-commit version is non-negative, every live store's name
is mounted, and every mounted store's instantiation succeeds (the external
loads that the round trip depends on). -/
theorem commit_then_loadVersion_roundtrip (ext : Ext) (rs : RootMultiStore)
    (hv0 : 0 ≤ rs.lastCommitID.version)
    (hcov : ∀ p ∈ rs.stores, ∃ q ∈ rs.storesParams, q.1.name = p.1.name)
    (hload : ∀ p ∈ rs.storesParams, ∀ id, ∃ s,
      loadCommitStoreFromParams ext rs.pruning p.1 id p.2 = Outcome.ok s) :
    (loadVersion ext (commit ext rs).2 (commit ext rs).1.version).1 = Outcome.ok () ∧
    (loadVersion ext (commit ext rs).2 (commit ext rs).1.version).2.lastCommitID =
      (commit ext rs).1 := by
  have hvne : (commit ext rs).1.version ≠ 0 := by
    show rs.lastCommitID.version + 1 ≠ 0
    omega
  have hcov' : ∀ si ∈ (commitStores ext (rs.lastCommitID.version + 1) rs.stores).1.storeInfos,
      ∃ p ∈ rs.storesParams, p.1.name = si.name := by
    intro si hsi
    have hchar : (commitStores ext (rs.lastCommitID.version + 1) rs.stores).1.storeInfos =
        (rs.stores.filter (participates ext)).map
          (recordedInfo ext (rs.lastCommitID.version + 1)) := by
      simp [commitStores, commitStoresList_storeInfos]
    rw [hchar] at hsi
    rcases List.mem_map.mp hsi with ⟨p, hp, rfl⟩
    rcases hcov p (List.mem_of_mem_filter hp) with ⟨q, hq, hname⟩
    exact ⟨q, hq, hname⟩
  obtain ⟨infos, hbi⟩ := buildInfos_ok_of_covered rs.storesParams
    (commitStores ext (rs.lastCommitID.version + 1) rs.stores).1.storeInfos [] hcov'
  obtain ⟨newStores, hla⟩ := loadAll_ok ext rs.pruning infos rs.storesParams [] hload
  have hmain := loadVersion_ok ext (commit ext rs).2 (commit ext rs).1.version
    (commitStores ext (rs.lastCommitID.version + 1) rs.stores).1 infos newStores
    hvne
    (getCommitInfo_after_batch_self rs.db (rs.lastCommitID.version + 1)
      (commitStores ext (rs.lastCommitID.version + 1) rs.stores).1)
    hbi hla
  rw [hmain]
  exact ⟨rfl, rfl⟩

/-- C3 witness: a commit on a one-store multi-store, followed by
`LoadVersion` at the committed version, restores the returned `CommitID`. -/
theorem commit_then_loadVersion_roundtrip_witness :
    (loadVersion
        ⟨true, fun _ => true, fun _ => false, fun _ => false,
          fun _ id _ => Except.ok ⟨StoreType.iavl, id.version, fun v => [v.toNat], none⟩⟩
        (commit
          ⟨true, fun _ => true, fun _ => false, fun _ => false,
            fun _ id _ => Except.ok ⟨StoreType.iavl, id.version, fun v => [v.toNat], none⟩⟩
          ⟨[], ⟨0, []⟩, PruningStrategy.syncable,
            [(⟨0, "acc", false⟩, ⟨⟨0, "acc", false⟩, false, StoreType.iavl⟩)],
            [(⟨0, "acc", false⟩, ⟨StoreType.iavl, 0, fun v => [v.toNat], none⟩)],
            [("acc", ⟨0, "acc", false⟩)]⟩).2
        (commit
          ⟨true, fun _ => true, fun _ => false, fun _ => false,
            fun _ id _ => Except.ok ⟨StoreType.iavl, id.version, fun v => [v.toNat], none⟩⟩
          ⟨[], ⟨0, []⟩, PruningStrategy.syncable,
            [(⟨0, "acc", false⟩, ⟨⟨0, "acc", false⟩, false, StoreType.iavl⟩)],
            [(⟨0, "acc", false⟩, ⟨StoreType.iavl, 0, fun v => [v.toNat], none⟩)],
            [("acc", ⟨0, "acc", false⟩)]⟩).1.version).2.lastCommitID =
      (commit
        ⟨true, fun _ => true, fun _ => false, fun _ => false,
          fun _ id _ => Except.ok ⟨StoreType.iavl, id.version, fun v => [v.toNat], none⟩⟩
        ⟨[], ⟨0, []⟩, PruningStrategy.syncable,
          [(⟨0, "acc", false⟩, ⟨⟨0, "acc", false⟩, false, StoreType.iavl⟩)],
          [(⟨0, "acc", false⟩, ⟨StoreType.iavl, 0, fun v => [v.toNat], none⟩)],
          [("acc", ⟨0, "acc", false⟩)]⟩).1 :=
  (commit_then_loadVersion_roundtrip
    ⟨true, fun _ => true, fun _ => false, fun _ => false,
      fun _ id _ => Except.ok ⟨StoreType.iavl, id.version, fun v => [v.toNat], none⟩⟩
    ⟨[], ⟨0, []⟩, PruningStrategy.syncable,
      [(⟨0, "acc", false⟩, ⟨⟨0, "acc", false⟩, false, StoreType.iavl⟩)],
      [(⟨0, "acc", false⟩, ⟨StoreType.iavl, 0, fun v => [v.toNat], none⟩)],
      [("acc", ⟨0, "acc", false⟩)]⟩
    (by decide)
    (by
      intro p hp
      rcases List.mem_singleton.mp hp with rfl
      exact ⟨_, List.mem_singleton_self _, rfl⟩)
    (by
      intro p hp id
      rcases List.mem_singleton.mp hp with rfl
      exact ⟨⟨StoreType.iavl, id.version, fun v => [v.toNat], none⟩, rfl⟩)).2

/-! ### Claim C4: commit monotonicity and per-version manifests -/

/-- C4: after `n` successful `Commit()` calls from version `v0`,
`LastCommitID().version = v0 + n` (each commit advances the version by
exactly one), and for each intermediate version `v0 + i` (`1 ≤ i ≤ n`) the
persisted `CommitInfo` is individually readable through `getCommitInfo` and
carries that version. -/
theorem commit_monotonicity (ext : Ext) (rs : RootMultiStore) (n : Nat) :
    ((commitN ext rs n).lastCommitID.version = rs.lastCommitID.version + n) ∧
    (∀ i : Nat, 1 ≤ i → i ≤ n → ∃ ci : CommitInfo,
      getCommitInfo (commitN ext rs n).db (rs.lastCommitID.version + i) = Except.ok ci ∧
      ci.version = rs.lastCommitID.version + i) := by
  induction n with
  | zero =>
      refine ⟨by simp [commitN], ?_⟩
      intro i h1 h2
      exact absurd (h1.trans h2) (by decide)
  | succ n ih =>
      have hstep : (commitN ext rs (n + 1)).lastCommitID.version =
          (commitN ext rs n).lastCommitID.version + 1 := rfl
      have hver : (commitN ext rs (n + 1)).lastCommitID.version =
          rs.lastCommitID.version + ((n + 1 : Nat) : Int) := by
        rw [hstep, ih.1]; push_cast; ring
      refine ⟨hver, ?_⟩
      intro i h1 h2
      by_cases hi : i ≤ n
      · obtain ⟨ci, hci, hv⟩ := ih.2 i h1 hi
        refine ⟨ci, ?_, hv⟩
        have hne : rs.lastCommitID.version + (i : Int) ≠
            (commitN ext rs n).lastCommitID.version + 1 := by
          rw [ih.1]; omega
        exact (getCommitInfo_after_batch (commitN ext rs n).db
          ((commitN ext rs n).lastCommitID.version + 1)
          (rs.lastCommitID.version + (i : Int))
          ((commitStores ext ((commitN ext rs n).lastCommitID.version + 1)
            (commitN ext rs n).stores).1) hne).trans hci
      · have hieq : i = n + 1 := by omega
        subst hieq
        have harg : rs.lastCommitID.version + ((n + 1 : Nat) : Int) =
            (commitN ext rs n).lastCommitID.version + 1 := by
          rw [ih.1]; push_cast; ring
        refine ⟨(commitStores ext ((commitN ext rs n).lastCommitID.version + 1)
          (commitN ext rs n).stores).1, ?_, ?_⟩
        · rw [harg]
          exact getCommitInfo_after_batch_self (commitN ext rs n).db
            ((commitN ext rs n).lastCommitID.version + 1) _
        · rw [harg]
          rfl

/-- C4 witness: two commits on a fresh multi-store reach version 2 and the
version-1 manifest is still readable. -/
theorem commit_monotonicity_witness :
    ((commitN
        ⟨true, fun _ => true, fun _ => false, fun _ => false,
          fun _ _ _ => Except.error "unused"⟩
        ⟨[], ⟨0, []⟩, PruningStrategy.syncable, [], [], []⟩ 2).lastCommitID.version = 2) ∧
    (∃ ci : CommitInfo,
      getCommitInfo (commitN
          ⟨true, fun _ => true, fun _ => false, fun _ => false,
            fun _ _ _ => Except.error "unused"⟩
          ⟨[], ⟨0, []⟩, PruningStrategy.syncable, [], [], []⟩ 2).db 1 = Except.ok ci ∧
      ci.version = 1) := by
  have h := commit_monotonicity
    ⟨true, fun _ => true, fun _ => false, fun _ => false,
      fun _ _ _ => Except.error "unused"⟩
    ⟨[], ⟨0, []⟩, PruningStrategy.syncable, [], [], []⟩ 2
  refine ⟨by rw [h.1]; rfl, ?_⟩
  obtain ⟨ci, hci, hv⟩ := h.2 1 (by decide) (by decide)
  exact ⟨ci, by simpa using hci, by simpa using hv⟩

/-! ### Claim C7: query failure conditions -/

theorem parsePath_error_of_no_slash {path : String} (h : startsWithSlash path = false) :
    parsePath path = Except.error ("invalid path: " ++ path) := by
  unfold parsePath
  rw [h]
  rfl

/-- C7 (counterexample): `Query` can return an "unknown request" failure even
though the path is well-formed, the store exists and it supports queries —
the substore's own response (here an unknown-request failure from the
substore's query handler, as the IAVL store produces for an unexpected
subpath) is forwarded verbatim.  This refutes the "exactly when" direction
of the claim. -/
theorem query_unknown_request_only_if_counterexample :
    query
        ⟨false, fun _ => true, fun _ => false, fun _ => false,
          fun _ _ _ => Except.error "unused"⟩
        ⟨[], ⟨0, []⟩, PruningStrategy.syncable, [],
          [(⟨0, "acc", false⟩,
            ⟨StoreType.iavl, 0, fun _ => [],
              some fun _ => ⟨codeUnknownRequest, "substore unknown request", [], 0, []⟩⟩)],
          [("acc", ⟨0, "acc", false⟩)]⟩
        ⟨"/acc/weird", [], 0, false⟩ =
      Outcome.ok ⟨codeUnknownRequest, "substore unknown request", [], 0, []⟩ ∧
    (startsWithSlash "/acc/weird" = true) ∧
    parsePath "/acc/weird" = Except.ok ("acc", "/weird") ∧
    ((getStoreByName
        ⟨[], ⟨0, []⟩, PruningStrategy.syncable, [],
          [(⟨0, "acc", false⟩,
            ⟨StoreType.iavl, 0, fun _ => [],
              some fun _ => ⟨codeUnknownRequest, "substore unknown request", [], 0, []⟩⟩)],
          [("acc", ⟨0, "acc", false⟩)]⟩ "acc").map
      (fun s => s.queryFn.isSome)).getD false = true := by
  refine ⟨by decide, by decide, by decide, by decide⟩

/-- C7 (amended): `Query` returns an "unknown request" failure — without
panicking — when the path does not start with "/", when no mounted store's
name equals the first path segment, or when the resolved store does not
support queries; and when proof is requested and required but the persisted
`CommitInfo` for the substore response's reported height is absent, it
returns an "internal error" failure.  (The converse does not hold: a
substore may itself answer with an unknown-request failure, which `Query`
forwards verbatim.) -/
theorem query_failure_conditions (ext : Ext) (rs : RootMultiStore) (req : RequestQuery) :
    (startsWithSlash req.path = false →
      query ext rs req = Outcome.ok (unknownRequestResult ("invalid path: " ++ req.path))) ∧
    (∀ storeName subpath, parsePath req.path = Except.ok (storeName, subpath) →
      (getStoreByName rs storeName = none →
        query ext rs req =
          Outcome.ok (unknownRequestResult ("no such store: " ++ storeName))) ∧
      (∀ store, getStoreByName rs storeName = some store → store.queryFn = none →
        query ext rs req = Outcome.ok (unknownRequestResult
          ("store " ++ storeName ++ " doesn't support queries"))) ∧
      (∀ store qf e, getStoreByName rs storeName = some store → store.queryFn = some qf →
        req.prove = true → ext.requireProof subpath = true →
        getCommitInfo rs.db (qf { req with path := subpath }).height = Except.error e →
        query ext rs req = Outcome.ok (internalErrorResult e))) := by
  constructor
  · intro h
    unfold query
    rw [parsePath_error_of_no_slash h]
  · intro storeName subpath hparse
    refine ⟨?_, ?_, ?_⟩
    · intro hstore
      unfold query
      rw [hparse]
      try dsimp only
      rw [hstore]
    · intro store hstore hqf
      unfold query
      rw [hparse]
      try dsimp only
      rw [hstore]
      try dsimp only
      rw [hqf]
    · intro store qf e hstore hqf hprove hreqp hgc
      rw [hprove] at hgc
      unfold query
      rw [hparse]
      try dsimp only
      rw [hstore]
      try dsimp only
      rw [hqf]
      try dsimp only
      rw [hprove, hreqp]
      rw [if_pos (show (true && true) = true from rfl)]
      rw [hgc]

/-- C7 witness: the amended theorem applied to the two spec examples —
`Query({path: "badpath"})` and `Query({path: "/doesnotexist"})` both produce
an unknown-request failure. -/
theorem query_failure_conditions_witness :
    query
        ⟨false, fun _ => true, fun _ => false, fun _ => false,
          fun _ _ _ => Except.error "unused"⟩
        ⟨[], ⟨0, []⟩, PruningStrategy.syncable, [], [], []⟩
        ⟨"badpath", [], 0, false⟩ =
      Outcome.ok (unknownRequestResult "invalid path: badpath") ∧
    query
        ⟨false, fun _ => true, fun _ => false, fun _ => false,
          fun _ _ _ => Except.error "unused"⟩
        ⟨[], ⟨0, []⟩, PruningStrategy.syncable, [], [], []⟩
        ⟨"/doesnotexist", [], 0, false⟩ =
      Outcome.ok (unknownRequestResult "no such store: doesnotexist") :=
  ⟨(query_failure_conditions
      ⟨false, fun _ => true, fun _ => false, fun _ => false,
        fun _ _ _ => Except.error "unused"⟩
      ⟨[], ⟨0, []⟩, PruningStrategy.syncable, [], [], []⟩
      ⟨"badpath", [], 0, false⟩).1 (by decide),
   ((query_failure_conditions
      ⟨false, fun _ => true, fun _ => false, fun _ => false,
        fun _ _ _ => Except.error "unused"⟩
      ⟨[], ⟨0, []⟩, PruningStrategy.syncable, [], [], []⟩
      ⟨"/doesnotexist", [], 0, false⟩).2 "doesnotexist" "" (by rfl)).1 (by rfl)⟩

end RootMS
